import Mathlib

/-!
Shallow embedding of the distributed box-constrained quadratic optimization
SVM solver in `src/examples/bqo_svm.cpp` (functions `initialize`, `bqo_svm`,
`evaluate`), together with proofs checking the natural-language specification
against it.

Modelling conventions:
* C++ `double` values are embedded as exact rationals `ℚ`.  The constant
  `INF` is `std::numeric_limits<double>::max()`, i.e. the largest finite
  double `2^1024 - 2^971`; `EPS` is `1.0e-6` (line 59 of the source).
* Dense vectors (`DenseVector<double>`) are embedded as `List ℚ` with
  pointwise addition, scalar multiplication and dot product.
* The outer loop of `bqo_svm` (source lines 301-441) is embedded as a
  state-transformer `body` over `LoopState`.  The values each worker reads
  back from the two synchronized reductions after `AggregatorFactory::sync()`
  (source lines 381-388: `w_inc`, `sum_alpha_inc`, `alpha_inc_square`,
  `alpha_inc_dot_alpha`, `max_step`) and the summed hinge loss
  (`loss_agg.get_value()`, line 421) depend on the training data and on the
  randomized inner solver, so one outer iteration of the loop is driven by a
  record `IterData` of those post-reduction values; a run of the loop is
  driven by a list of such records, whose length plays the role of
  `max_iter`.  The aggregation protocol itself is embedded separately
  (`sumReduceRound`, `minReduceRound`, `workerContribution`).
* The local variables `w_inc_square` and `w_dot_w_inc` (source lines
  214-215) are declared without an initializer and first read by the `+=`
  at lines 390-391; their indeterminate initial contents are embedded as
  explicit parameters of the initial state.
* The local variable `gap` (line 228) is likewise declared without an
  initializer and assigned only at line 428; it is embedded as
  `Option ℚ` with `none` standing for the indeterminate unassigned value.
  The ghost field `gaps` records every value assigned to `gap`; it changes
  exactly when the source assigns `gap` and is otherwise inert.
-/

/-- Embedding of `INF` (source line 58): `std::numeric_limits<double>::max()`,
the largest finite IEEE-754 double, exactly `2^1024 - 2^971`. -/
def INF : ℚ := 2 ^ 1024 - 2 ^ 971

/-- Embedding of `EPS` (source line 59): `1.0e-6`. -/
def EPS : ℚ := 1 / 1000000

/-- Pointwise sum of two dense vectors (`DenseVector` operator `+`). -/
def vadd (a b : List ℚ) : List ℚ := List.zipWith (fun x y => x + y) a b

/-- Scalar multiple of a dense vector (`DenseVector` operator `*`). -/
def smul (c : ℚ) (v : List ℚ) : List ℚ := v.map (fun x => c * x)

/-- Dot product of two dense vectors (`DenseVector::dot`). -/
def dot (a b : List ℚ) : ℚ := (List.zipWith (fun x y => x * y) a b).sum

/-- Embedding of `self_dot_product` (source lines 91-98): the sum of the
squares of the stored values of a vector. -/
def self_dot_product (v : List ℚ) : ℚ := (v.map (fun x => x * x)).sum

/-- Embedding of the per-coordinate dual update of the inner solver (source
line 353): `alpha[i] = std::min(std::max(alpha[i] - G / QD[i], 0.0), INF)`. -/
def alphaUpdate (a G QD : ℚ) : ℚ := min (max (a - G / QD) 0) INF

/-- Embedding of the projected-gradient computation of the inner solver
(source lines 338-349): `PG = 0`; if `alpha[i] == 0` then `PG = G` only when
`G < 0`; else if `alpha[i] == INF` then `PG = G` only when `G > 0`; else
`PG = G`. -/
def pg (a G : ℚ) : ℚ :=
  if a = 0 then (if G < 0 then G else 0)
  else if a = INF then (if 0 < G then G else 0)
  else G

/-- Projected gradient as described by the specification sentence for claim
C7: `PG = G` unless `alpha_i == 0 and G >= 0`, in which case `PG = 0`, with
no other case changing `PG` from `G`.  This definition follows the words of
the spec and is compared against `pg`, which follows the source. -/
def claimedPG (a G : ℚ) : ℚ := if a = 0 ∧ 0 ≤ G then 0 else G

/-- Embedding of the feasibility-ceiling computation (source lines 307 and
361-370): starting from `max_step = INF`, for every local index `i` with
`alpha_inc[i] > 0` take `min(max_step, INF)` and with `alpha_inc[i] < 0`
take `min(max_step, -alpha_orig[i] / alpha_inc[i])`.  The list holds the
pairs `(alpha_orig[i], alpha_inc[i])`. -/
def maxStepStep (m : ℚ) (p : ℚ × ℚ) : ℚ :=
  if 0 < p.2 then min m INF
  else if p.2 < 0 then min m (-p.1 / p.2) else m

/-- Feasibility ceiling as the fold of `maxStepStep` over all local pairs,
starting from `INF` (source line 307). -/
def maxStepFold (pairs : List (ℚ × ℚ)) : ℚ := pairs.foldl maxStepStep INF

/-- Embedding of `husky::lib::ml::DataFormat` as used by `initialize`
(source lines 106-111). -/
inductive DataFormat
  | kLIBSVMFormat
  | kTSVFormat
deriving DecidableEq

/-- Embedding of the format dispatch in `initialize` (source lines 105-111):
`format` is assigned only when the parameter equals `"libsvm"` or `"tsv"`;
the `if`/`else if` chain has no final `else`, so any other string leaves the
`DataFormat` local unassigned and execution falls through to the data
loading.  `none` stands for that unassigned (indeterminate) value; no error
of any kind is produced. -/
def parseFormat (s : String) : Option DataFormat :=
  if s = "libsvm" then some DataFormat.kLIBSVMFormat
  else if s = "tsv" then some DataFormat.kTSVFormat
  else none

/-- Modelled from the spec: the merge of one round of the sum-reduction of
the aggregation service (husky `ParameterBucket` / `Aggregator`, whose code
is not under `src/`).  Spec section 4.3: the reduction resets its
accumulated contribution at the start of every outer iteration, its merge
operator is elementwise addition, so a round combines the per-worker
contributions by summation starting from the identity `0`. -/
def sumReduceRound (contribs : List ℚ) : ℚ := contribs.sum

/-- Modelled from the spec: the merge of one round of the min-reduction of
the aggregation service (husky `Aggregator` with `std::min`, source line
244, whose library code is not under `src/`).  Spec section 4.3: reset every
outer iteration, elementwise minimum with identity element `+∞` (the source
uses `INF`). -/
def minReduceRound (contribs : List ℚ) : ℚ := contribs.foldl min INF

/-- Embedding of the per-worker contribution to the sum-reduction (source
lines 373-378): the worker submits its local value minus a `1/W` share of
the shared pre-iteration baseline, e.g.
`param_list.update(i, w[i] - w_orig[i] / W)` and
`param_list.update(n, sum_alpha_inc - sum_alpha_inc_org / W)`. -/
def workerContribution (localVal baseline : ℚ) (W : ℕ) : ℚ :=
  localVal - baseline / W

/-- Values one worker reads back after the synchronization point of one
outer iteration (source lines 381-388), together with the summed hinge loss
of that iteration (line 421) and the aggregated dual increment of the local
solver.  These depend on the training data and the randomized inner sweeps,
so the embedding of the outer loop takes them as the data of the
iteration. -/
structure IterData where
  w_inc : List ℚ
  alpha_inc : List ℚ
  sum_alpha_inc : ℚ
  alpha_inc_square : ℚ
  alpha_inc_dot_alpha : ℚ
  max_step : ℚ
  loss_sum : ℚ

/-- State of the outer loop of `bqo_svm` across iterations.  `gap` is
`Option`-valued because the source variable (line 228) starts unassigned;
`gaps` is a ghost list recording every value the source assigns to `gap`
at line 428. -/
structure LoopState where
  w : List ℚ
  best_w : List ℚ
  alpha : List ℚ
  old_primal : ℚ
  obj : ℚ
  reg : ℚ
  w_inc_square : ℚ
  w_dot_w_inc : ℚ
  gap : Option ℚ
  gaps : List ℚ

/-- Value of `w_inc_square` after the accumulation at source line 390
(`w_inc_square += self_dot_product(w_inc)`), i.e. the value used by the
current iteration. -/
def wincSqUsed (st : LoopState) (d : IterData) : ℚ :=
  st.w_inc_square + self_dot_product d.w_inc

/-- Value of `w_dot_w_inc` after the accumulation at source line 391
(`w_dot_w_inc += w_orig.dot(w_inc)`; `w_orig = w` at line 308). -/
def wdwUsed (st : LoopState) (d : IterData) : ℚ :=
  st.w_dot_w_inc + dot st.w d.w_inc

/-- Embedding of `grad_alpha_inc` (source line 394):
`w_dot_w_inc + alpha_inc_dot_alpha - sum_alpha_inc`. -/
def gradAt (st : LoopState) (d : IterData) : ℚ :=
  wdwUsed st d + d.alpha_inc_dot_alpha - d.sum_alpha_inc

/-- Embedding of `aQa` (source line 400): `alpha_inc_square + w_inc_square`. -/
def aQaAt (st : LoopState) (d : IterData) : ℚ :=
  d.alpha_inc_square + wincSqUsed st d

/-- Embedding of the step size `eta` (source line 401):
`std::min(max_step, -grad_alpha_inc / aQa)`. -/
def etaAt (st : LoopState) (d : IterData) : ℚ :=
  min d.max_step (-gradAt st d / aQaAt st d)

/-- Embedding of the dual-objective accumulation (source line 407):
`obj += eta * (0.5 * eta * aQa + grad_alpha_inc)`. -/
def objAfter (st : LoopState) (d : IterData) : ℚ :=
  st.obj + etaAt st d * ((1 / 2) * etaAt st d * aQaAt st d + gradAt st d)

/-- Embedding of the regularization-term accumulation (source line 409):
`reg += eta * (w_dot_w_inc + 0.5 * eta * w_inc_square)`. -/
def regAfter (st : LoopState) (d : IterData) : ℚ :=
  st.reg + etaAt st d * (wdwUsed st d + (1 / 2) * etaAt st d * wincSqUsed st d)

/-- Embedding of `primal` (source lines 411-421): `primal = 0` and then
`primal += reg + loss_agg.get_value()`. -/
def primalAt (st : LoopState) (d : IterData) : ℚ :=
  regAfter st d + d.loss_sum

/-- Embedding of the weight update (source line 404):
`w = w_orig + eta * w_inc`. -/
def wAfter (st : LoopState) (d : IterData) : List ℚ :=
  vadd st.w (smul (etaAt st d) d.w_inc)

/-- Embedding of the duality gap (source line 428):
`gap = (primal + obj) / init_primal` with `init_primal = C * N` (line 213);
the parameter `P` is `init_primal`. -/
def gapAt (P : ℚ) (st : LoopState) (d : IterData) : ℚ :=
  (primalAt st d + objAfter st d) / P

/-- State reached at the bottom of one outer iteration when the loop
continues (source lines 390-440, no `break` taken): accumulators updated,
step applied, best snapshot possibly taken, `gap` assigned. -/
def contState (P : ℚ) (st : LoopState) (d : IterData) : LoopState :=
  { w := wAfter st d
    best_w := if primalAt st d < st.old_primal then wAfter st d else st.best_w
    alpha := vadd st.alpha (smul (etaAt st d) d.alpha_inc)
    old_primal := if primalAt st d < st.old_primal then primalAt st d else st.old_primal
    obj := objAfter st d
    reg := regAfter st d
    w_inc_square := wincSqUsed st d
    w_dot_w_inc := wdwUsed st d
    gap := some (gapAt P st d)
    gaps := st.gaps ++ [gapAt P st d] }

/-- Reason the outer loop of `bqo_svm` stopped: `break` at the non-descent
check (source lines 395-398), `break` at the duality-gap check (lines
436-439), or the `while` condition `iter_out < max_iter` turning false. -/
inductive Reason
  | nonDescent
  | gapConverged
  | exhausted
deriving DecidableEq

/-- Embedding of one outer iteration of `bqo_svm` (source lines 302-440).
`Sum.inl` carries the state into the next iteration; `Sum.inr` carries the
final state and the `break` reason.  At the non-descent `break`, `alpha`
still holds the full local-solver result `alpha_orig + alpha_inc` and `w`
is reset to `best_w` (lines 396-397); at the gap `break`, the step has been
applied and `w` is reset to the (possibly just updated) `best_w` (lines
437-438). -/
def body (P : ℚ) (st : LoopState) (d : IterData) : LoopState ⊕ (LoopState × Reason) :=
  if 0 ≤ gradAt st d then
    Sum.inr ({ st with
                w := st.best_w
                alpha := vadd st.alpha d.alpha_inc
                w_inc_square := wincSqUsed st d
                w_dot_w_inc := wdwUsed st d }, Reason.nonDescent)
  else if gapAt P st d < EPS then
    Sum.inr ({ contState P st d with w := (contState P st d).best_w }, Reason.gapConverged)
  else
    Sum.inl (contState P st d)

/-- Embedding of the outer `while` loop of `bqo_svm` (source lines 301-441):
one `IterData` per allowed outer iteration, so the length of the list is
`max_iter`; an empty list means the budget is exhausted. -/
def runLoop (P : ℚ) : LoopState → List IterData → LoopState × Reason
  | st, [] => (st, Reason.exhausted)
  | st, d :: ds =>
    match body P st d with
    | Sum.inl st2 => runLoop P st2 ds
    | Sum.inr r => r

/-- State of `bqo_svm` on entry to the outer loop (source lines 210-257):
`w`, `best_w` zero of dimension `n`; `alpha` zero of dimension `l`;
`old_primal = INF`, `obj = 0` (lines 256-257), `reg = 0` (line 212).
`w2` and `wd` are the indeterminate initial contents of the uninitialized
locals `w_inc_square` and `w_dot_w_inc` (lines 214-215); `gap` (line 228)
starts unassigned. -/
def initState (n l : ℕ) (w2 wd : ℚ) : LoopState :=
  { w := List.replicate n 0
    best_w := List.replicate n 0
    alpha := List.replicate l 0
    old_primal := INF
    obj := 0
    reg := 0
    w_inc_square := w2
    w_dot_w_inc := wd
    gap := none
    gaps := [] }

/-- Embedding of the `solution` object built at source lines 446-449. -/
structure SolutionR where
  duality_gap : Option ℚ
  w : List ℚ
  alpha : List ℚ

/-- Embedding of `bqo_svm` as a whole (outer-loop part): run the loop from
the initial state and package the `solution` fields (source lines 446-449). -/
def bqo_svm (P : ℚ) (n l : ℕ) (w2 wd : ℚ) (ds : List IterData) : SolutionR :=
  { duality_gap := ((runLoop P (initState n l w2 wd) ds).1).gap
    w := ((runLoop P (initState n l w2 wd) ds).1).w
    alpha := ((runLoop P (initState n l w2 wd) ds).1).alpha }

/-- State at the start of outer iteration `ds.length` when every iteration
driven by `ds` ran to the bottom of the loop without a `break`; `none` when
some earlier iteration stopped the loop. -/
def stateAfter (P : ℚ) : LoopState → List IterData → Option LoopState
  | st, [] => some st
  | st, d :: ds =>
    match body P st d with
    | Sum.inl st2 => stateAfter P st2 ds
    | Sum.inr _ => none

/-- Ghost trace of the summands `w_orig.dot(w_inc)` accumulated into
`w_dot_w_inc` at source line 391, one per completed iteration. -/
def wOrigDots (P : ℚ) : LoopState → List IterData → List ℚ
  | _, [] => []
  | st, d :: ds =>
    dot st.w d.w_inc ::
      (match body P st d with
       | Sum.inl st2 => wOrigDots P st2 ds
       | Sum.inr _ => [])

/-- Test sample as used by `evaluate` (a labeled point with feature vector
`x` and label `y`). -/
structure LabeledPoint where
  x : List ℚ
  y : ℚ

/-- Embedding of the misclassification count of `evaluate` (source lines
466-473): a sample counts as an error when `(w.dot(x)) * y <= 0`; the
per-worker counts are summed, so the list is the concatenated global test
partition. -/
def errorCount (w : List ℚ) (pts : List LabeledPoint) : ℕ :=
  (pts.filter (fun p => dot w p.x * p.y ≤ 0)).length

/-- Embedding of the accuracy reported by `evaluate` (source line 480):
`1.0 - error / num_test`, an unguarded division by the aggregated test
count.  When the count is zero the double division `0 / 0` produces no
number (NaN); `none` stands for that division-by-zero outcome. -/
def accuracyOf (w : List ℚ) (pts : List LabeledPoint) : Option ℚ :=
  if pts.length = 0 then none
  else some (1 - (errorCount w pts : ℚ) / (pts.length : ℚ))

/-- Iteration data for the concrete two-iteration run used below: aggregated
weight increment `[1]`, dual increment `[0]`, `sum_alpha_inc = 1`,
`alpha_inc_square = 1`, `alpha_inc_dot_alpha = 0`, `max_step = INF`, summed
hinge loss `1`. -/
def d0x : IterData := ⟨[1], [0], 1, 1, 0, INF, 1⟩

/-- Iteration data for the second iteration of the concrete run: same as
`d0x` but with summed hinge loss `2`, so the primal does not improve. -/
def d1x : IterData := ⟨[1], [0], 1, 1, 0, INF, 2⟩

/-- State after the first concrete iteration (`d0x` from the initial state
with both indeterminate accumulators taken to be `0`). -/
def s1x : LoopState :=
  ⟨[1/2], [1/2], [0], 9/8, -1/4, 1/8, 1, 0, some (7/8), [7/8]⟩

/-- State after the second concrete iteration (`d1x` from `s1x`): the step
is applied (`w = [2/3]`) but the primal worsens, so `best_w` stays `[1/2]`. -/
def s2x : LoopState :=
  ⟨[2/3], [1/2], [0], 9/8, -7/24, 17/72, 2, 1/2, some (35/18), [7/8, 35/18]⟩

/-- Iteration data whose aggregated values are all zero, so the first
iteration hits the non-descent check (`grad_alpha_inc = 0 >= 0`). -/
def dzero : IterData := ⟨[0], [0], 0, 0, 0, INF, 0⟩

/-- Iteration data like `d0x` but with dual increment `[1]`, used to drive a
step from a state whose uninitialized `w_inc_square` holds a negative value. -/
def d5x : IterData := ⟨[1], [1], 1, 1, 0, INF, 1⟩

theorem body_step1 : body 1 (initState 1 1 0 0) d0x = Sum.inl s1x := by
  norm_num [body, contState, gradAt, wdwUsed, wincSqUsed, aQaAt, etaAt,
    objAfter, regAfter, primalAt, wAfter, gapAt, initState, d0x, s1x, dot,
    self_dot_product, vadd, smul, INF, EPS, min_def, List.replicate]

theorem body_step2 : body 1 s1x d1x = Sum.inl s2x := by
  norm_num [body, contState, gradAt, wdwUsed, wincSqUsed, aQaAt, etaAt,
    objAfter, regAfter, primalAt, wAfter, gapAt, d1x, s1x, s2x, dot,
    self_dot_product, vadd, smul, INF, EPS, min_def]

theorem body_inl_eq (P : ℚ) (st : LoopState) (d : IterData) (st2 : LoopState)
    (h : body P st d = Sum.inl st2) : st2 = contState P st d := by
  by_cases h1 : 0 ≤ gradAt st d
  · rw [body, if_pos h1] at h
    exact Sum.noConfusion h
  · by_cases h2 : gapAt P st d < EPS
    · rw [body, if_neg h1, if_pos h2] at h
      exact Sum.noConfusion h
    · rw [body, if_neg h1, if_neg h2] at h
      exact (Sum.inl.inj h).symm

theorem body_inr_w_eq_best (P : ℚ) (st : LoopState) (d : IterData)
    (sr : LoopState × Reason) (h : body P st d = Sum.inr sr) :
    sr.1.w = sr.1.best_w := by
  by_cases h1 : 0 ≤ gradAt st d
  · rw [body, if_pos h1] at h
    rw [← Sum.inr.inj h]
  · by_cases h2 : gapAt P st d < EPS
    · rw [body, if_neg h1, if_pos h2] at h
      rw [← Sum.inr.inj h]
    · rw [body, if_neg h1, if_neg h2] at h
      exact Sum.noConfusion h

theorem runLoop_w_eq_best_of_break (P : ℚ) :
    ∀ (ds : List IterData) (st s : LoopState) (r : Reason),
      runLoop P st ds = (s, r) → r ≠ Reason.exhausted → s.w = s.best_w := by
  intro ds
  induction ds with
  | nil =>
    intro st s r h hr
    rw [runLoop] at h
    injection h with h1 h2
    exact absurd h2.symm hr
  | cons d tl ih =>
    intro st s r h hr
    rcases hb : body P st d with st2 | sr
    · simp only [runLoop, hb] at h
      exact ih st2 s r h hr
    · simp only [runLoop, hb] at h
      have hw := body_inr_w_eq_best P st d sr hb
      rw [h] at hw
      exact hw

/-- Claim C1 counterexample: a two-iteration run in which both iterations
apply a step but the second does not improve the primal, so the loop leaves
by exhausting the iteration budget with `w = [2/3]` while
`best_w = [1/2]`; the returned weight vector is not `best_w`, refuting the
claim for the exhausted-budget terminal state. -/
theorem c1_counterexample :
    (runLoop 1 (initState 1 1 0 0) [d0x, d1x]).2 = Reason.exhausted ∧
    (runLoop 1 (initState 1 1 0 0) [d0x, d1x]).1.w = [2/3] ∧
    (runLoop 1 (initState 1 1 0 0) [d0x, d1x]).1.best_w = [1/2] ∧
    (runLoop 1 (initState 1 1 0 0) [d0x, d1x]).1.w ≠
      (runLoop 1 (initState 1 1 0 0) [d0x, d1x]).1.best_w := by
  have h : runLoop 1 (initState 1 1 0 0) [d0x, d1x] = (s2x, Reason.exhausted) := by
    simp only [runLoop, body_step1, body_step2]
  rw [h]
  refine ⟨rfl, rfl, rfl, ?_⟩
  norm_num [s2x]

/-- Claim C1 as amended: the two `break` terminal states of the outer loop
(converged by gap, converged by non-descent direction) return `best_w` as
the weight vector; only the exhausted-budget state returns the current
iterate instead, and that iterate can differ from `best_w`. -/
theorem c1_amended (P : ℚ) (ds : List IterData) (st s : LoopState) (r : Reason)
    (h : runLoop P st ds = (s, r)) (hr : r ≠ Reason.exhausted) :
    s.w = s.best_w :=
  runLoop_w_eq_best_of_break P ds st s r h hr


theorem c1_amended_witness :
    (runLoop 1 (initState 1 1 0 0) [dzero]).1.w =
      (runLoop 1 (initState 1 1 0 0) [dzero]).1.best_w :=
  c1_amended 1 [dzero] (initState 1 1 0 0) _ _ rfl (by
    have hb : body 1 (initState 1 1 0 0) dzero =
        Sum.inr ({ initState 1 1 0 0 with
                    w := (initState 1 1 0 0).best_w
                    alpha := vadd (initState 1 1 0 0).alpha dzero.alpha_inc
                    w_inc_square := wincSqUsed (initState 1 1 0 0) dzero
                    w_dot_w_inc := wdwUsed (initState 1 1 0 0) dzero },
                  Reason.nonDescent) := by
      rw [body, if_pos]
      norm_num [gradAt, wdwUsed, dot, dzero, initState, List.replicate]
    simp only [runLoop, hb]
    simp)

theorem runLoop_gap_getLast (P : ℚ) :
    ∀ (ds : List IterData) (st : LoopState),
      st.gap = st.gaps.getLast? →
      ((runLoop P st ds).1).gap = ((runLoop P st ds).1).gaps.getLast? := by
  intro ds
  induction ds with
  | nil =>
    intro st hst
    simpa [runLoop] using hst
  | cons d tl ih =>
    intro st hst
    rcases hb : body P st d with st2 | sr
    · simp only [runLoop, hb]
      refine ih st2 ?_
      rw [body_inl_eq P st d st2 hb]
      simp [contState]
    · simp only [runLoop, hb]
      by_cases h1 : 0 ≤ gradAt st d
      · rw [body, if_pos h1] at hb
        rw [← Sum.inr.inj hb]
        simpa using hst
      · by_cases h2 : gapAt P st d < EPS
        · rw [body, if_neg h1, if_pos h2] at hb
          rw [← Sum.inr.inj hb]
          simp [contState]
        · rw [body, if_neg h1, if_neg h2] at hb
          exact Sum.noConfusion hb

theorem runLoop_gaps_extends (P : ℚ) :
    ∀ (ds : List IterData) (st : LoopState),
      ∃ tl, ((runLoop P st ds).1).gaps = st.gaps ++ tl := by
  intro ds
  induction ds with
  | nil =>
    intro st
    exact ⟨[], by simp [runLoop]⟩
  | cons d tl ih =>
    intro st
    rcases hb : body P st d with st2 | sr
    · simp only [runLoop, hb]
      rw [body_inl_eq P st d st2 hb]
      obtain ⟨t2, ht2⟩ := ih (contState P st d)
      exact ⟨[gapAt P st d] ++ t2, by rw [ht2]; simp [contState]⟩
    · simp only [runLoop, hb]
      by_cases h1 : 0 ≤ gradAt st d
      · rw [body, if_pos h1] at hb
        rw [← Sum.inr.inj hb]
        exact ⟨[], by simp⟩
      · by_cases h2 : gapAt P st d < EPS
        · rw [body, if_neg h1, if_pos h2] at hb
          rw [← Sum.inr.inj hb]
          exact ⟨[gapAt P st d], by simp [contState]⟩
        · rw [body, if_neg h1, if_neg h2] at hb
          exact Sum.noConfusion hb

/-- Claim C9 (confirmed): the returned `duality_gap` field is the content of
the local variable `gap`, which holds its unassigned indeterminate value
(`none`) exactly when `max_iter = 0` (no iteration data) or the first outer
iteration leaves at the non-descent check (`grad_alpha_inc >= 0`); in every
other run it is the value computed by the last completed execution of
source line 428, i.e. the last entry of the ghost trace `gaps`. -/
theorem c9_duality_gap (P : ℚ) (n l : ℕ) (w2 wd : ℚ) (ds : List IterData) :
    (bqo_svm P n l w2 wd ds).duality_gap =
      ((runLoop P (initState n l w2 wd) ds).1).gaps.getLast? ∧
    ((bqo_svm P n l w2 wd ds).duality_gap = none ↔
      ds = [] ∨ ∃ d tl, ds = d :: tl ∧ 0 ≤ gradAt (initState n l w2 wd) d) := by
  have hinit : (initState n l w2 wd).gap = (initState n l w2 wd).gaps.getLast? := by
    simp [initState]
  have h1 : (bqo_svm P n l w2 wd ds).duality_gap =
      ((runLoop P (initState n l w2 wd) ds).1).gaps.getLast? := by
    show ((runLoop P (initState n l w2 wd) ds).1).gap = _
    exact runLoop_gap_getLast P ds (initState n l w2 wd) hinit
  refine ⟨h1, ?_⟩
  rw [h1, List.getLast?_eq_none_iff]
  cases ds with
  | nil =>
    simp [runLoop, initState]
  | cons d tl =>
    by_cases hg : 0 ≤ gradAt (initState n l w2 wd) d
    · have hb : body P (initState n l w2 wd) d =
          Sum.inr ({ initState n l w2 wd with
                      w := (initState n l w2 wd).best_w
                      alpha := vadd (initState n l w2 wd).alpha d.alpha_inc
                      w_inc_square := wincSqUsed (initState n l w2 wd) d
                      w_dot_w_inc := wdwUsed (initState n l w2 wd) d },
                    Reason.nonDescent) := by
        rw [body, if_pos hg]
      simp only [runLoop, hb]
      constructor
      · intro h3
        exact Or.inr ⟨d, tl, rfl, hg⟩
      · intro h3
        rfl
    · constructor
      · intro hgaps
        exfalso
        by_cases h2 : gapAt P (initState n l w2 wd) d < EPS
        · have hb : body P (initState n l w2 wd) d =
              Sum.inr ({ contState P (initState n l w2 wd) d with
                          w := (contState P (initState n l w2 wd) d).best_w },
                        Reason.gapConverged) := by
            rw [body, if_neg hg, if_pos h2]
          rw [show ((d :: tl : List IterData)) = d :: tl from rfl] at hgaps
          simp only [runLoop, hb] at hgaps
          simp [contState, initState] at hgaps
        · have hb : body P (initState n l w2 wd) d =
              Sum.inl (contState P (initState n l w2 wd) d) := by
            rw [body, if_neg hg, if_neg h2]
          simp only [runLoop, hb] at hgaps
          obtain ⟨t2, ht2⟩ :=
            runLoop_gaps_extends P tl (contState P (initState n l w2 wd) d)
          rw [ht2] at hgaps
          simp [contState, initState] at hgaps
      · intro hor
        rcases hor with hnil | ⟨d2, tl2, heq, hg2⟩
        · exact absurd hnil (List.cons_ne_nil d tl)
        · rw [List.cons.injEq] at heq
          rw [← heq.1] at hg2
          exact absurd hg2 hg

theorem stateAfter_accumulators (P : ℚ) :
    ∀ (ds : List IterData) (st s : LoopState),
      stateAfter P st ds = some s →
      s.w_inc_square =
        st.w_inc_square + (ds.map (fun d => self_dot_product d.w_inc)).sum ∧
      s.w_dot_w_inc = st.w_dot_w_inc + (wOrigDots P st ds).sum := by
  intro ds
  induction ds with
  | nil =>
    intro st s h
    simp only [stateAfter, Option.some.injEq] at h
    rw [← h]
    simp [wOrigDots]
  | cons d tl ih =>
    intro st s h
    rcases hb : body P st d with st2 | sr
    · have hc := body_inl_eq P st d st2 hb
      subst hc
      simp only [stateAfter, hb] at h
      obtain ⟨h1, h2⟩ := ih (contState P st d) s h
      constructor
      · rw [h1]
        simp only [contState, wincSqUsed, List.map_cons, List.sum_cons]
        ring
      · rw [h2]
        simp only [wOrigDots, hb, contState, wdwUsed, List.sum_cons]
        ring
    · simp only [stateAfter, hb] at h
      exact Option.noConfusion h

/-- Claim C3 (confirmed): the curvature accumulators `w_inc_square` and
`w_dot_w_inc` are never reinitialized inside the outer loop.  If the loop,
started from the indeterminate initial contents `w2` and `wd` of the two
uninitialized locals, runs the iterations of `ds` to completion and then
enters a further iteration with data `d`, the values used at that iteration
to form `grad_alpha_inc` and the step denominator equal the initial
(indeterminate) values plus the sum over all completed iterations of that
iteration's `self_dot_product(w_inc)` resp. `w_orig.dot(w_inc)`.  With
`ds = []` this is the first iteration, whose used values are
`w2 + self_dot_product d.w_inc` and `wd + dot s.w d.w_inc`: the
uninitialized contents are read before any assignment. -/
theorem c3_curvature_accumulators (P : ℚ) (n l : ℕ) (w2 wd : ℚ)
    (ds : List IterData) (s : LoopState)
    (h : stateAfter P (initState n l w2 wd) ds = some s) (d : IterData) :
    wincSqUsed s d =
      w2 + (((ds ++ [d]).map (fun x => self_dot_product x.w_inc)).sum) ∧
    wdwUsed s d =
      wd + ((wOrigDots P (initState n l w2 wd) ds).sum + dot s.w d.w_inc) := by
  obtain ⟨h1, h2⟩ := stateAfter_accumulators P ds (initState n l w2 wd) s h
  constructor
  · rw [wincSqUsed, h1]
    simp only [initState, List.map_append, List.sum_append, List.map_cons,
      List.sum_cons, List.map_nil, List.sum_nil]
    ring
  · rw [wdwUsed, h2]
    simp only [initState]
    ring

theorem c3_witness :
    wincSqUsed s1x d1x =
      0 + ((([d0x] ++ [d1x]).map (fun x => self_dot_product x.w_inc)).sum) ∧
    wdwUsed s1x d1x =
      0 + ((wOrigDots 1 (initState 1 1 0 0) [d0x]).sum + dot s1x.w d1x.w_inc) :=
  c3_curvature_accumulators 1 1 1 0 0 [d0x] s1x
    (by simp only [stateAfter, body_step1]) d1x

/-- Claim C4 counterexample: in the concrete two-iteration run, the
accumulator `obj` holds `-7/24` after the second iteration while the
closed-form delta contributed by that iteration alone is
`objAfter s1x d1x - s1x.obj = -1/24` (and `reg` holds `17/72` against an
iteration delta of `1/9`): the accumulators carry the first iteration's
`-1/4` resp. `1/8` across iterations, so they are not reinitialized once
per outer iteration and do not track only the current iteration's
contribution. -/
theorem c4_counterexample :
    (stateAfter 1 (initState 1 1 0 0) [d0x]).map LoopState.obj = some (-1/4) ∧
    (stateAfter 1 (initState 1 1 0 0) [d0x, d1x]).map LoopState.obj =
      some (-7/24) ∧
    objAfter s1x d1x - s1x.obj = -1/24 ∧ ((-7/24 : ℚ) ≠ -1/24) ∧
    (stateAfter 1 (initState 1 1 0 0) [d0x]).map LoopState.reg = some (1/8) ∧
    (stateAfter 1 (initState 1 1 0 0) [d0x, d1x]).map LoopState.reg =
      some (17/72) ∧
    regAfter s1x d1x - s1x.reg = 1/9 ∧ ((17/72 : ℚ) ≠ 1/9) := by
  have h1 : stateAfter 1 (initState 1 1 0 0) [d0x] = some s1x := by
    simp only [stateAfter, body_step1]
  have h2 : stateAfter 1 (initState 1 1 0 0) [d0x, d1x] = some s2x := by
    simp only [stateAfter, body_step1, body_step2]
  rw [h1, h2]
  refine ⟨rfl, rfl, ?_, by norm_num, rfl, rfl, ?_, by norm_num⟩
  · norm_num [objAfter, etaAt, aQaAt, gradAt, wdwUsed, wincSqUsed, s1x, d1x,
      dot, self_dot_product, INF, min_def]
  · norm_num [regAfter, etaAt, aQaAt, gradAt, wdwUsed, wincSqUsed, s1x, d1x,
      dot, self_dot_product, INF, min_def]

/-- Claim C4 as amended: `obj` and `reg` are initialized exactly once,
before the outer loop (source lines 257 and 212), and inside the loop they
only accumulate: every iteration that runs to the bottom of the loop adds
the closed-form delta of the applied step to the previous value, so both
track running totals across outer iterations, not per-iteration
contributions. -/
theorem c4_amended (P : ℚ) (st : LoopState) (d : IterData) (st2 : LoopState)
    (h : body P st d = Sum.inl st2) (n l : ℕ) (w2 wd : ℚ) :
    st2.obj =
      st.obj + etaAt st d * ((1/2) * etaAt st d * aQaAt st d + gradAt st d) ∧
    st2.reg =
      st.reg +
        etaAt st d * (wdwUsed st d + (1/2) * etaAt st d * wincSqUsed st d) ∧
    (initState n l w2 wd).obj = 0 ∧ (initState n l w2 wd).reg = 0 := by
  have hc := body_inl_eq P st d st2 h
  subst hc
  exact ⟨rfl, rfl, rfl, rfl⟩

theorem c4_amended_witness :
    s1x.obj = (initState 1 1 0 0).obj +
      etaAt (initState 1 1 0 0) d0x *
        ((1/2) * etaAt (initState 1 1 0 0) d0x * aQaAt (initState 1 1 0 0) d0x +
          gradAt (initState 1 1 0 0) d0x) ∧
    s1x.reg = (initState 1 1 0 0).reg +
      etaAt (initState 1 1 0 0) d0x *
        (wdwUsed (initState 1 1 0 0) d0x +
          (1/2) * etaAt (initState 1 1 0 0) d0x * wincSqUsed (initState 1 1 0 0) d0x) ∧
    (initState 1 1 0 0).obj = 0 ∧ (initState 1 1 0 0).reg = 0 :=
  c4_amended 1 (initState 1 1 0 0) d0x s1x body_step1 1 1 0 0

theorem sum_map_sub_share (l : List ℚ) (c : ℚ) :
    (l.map (fun s => s - c)).sum = l.sum - l.length * c := by
  induction l with
  | nil => simp
  | cons a t ih =>
    simp only [List.map_cons, List.sum_cons, List.length_cons, ih]
    push_cast
    ring

theorem foldl_min_le_init : ∀ (l : List ℚ) (m : ℚ), l.foldl min m ≤ m := by
  intro l
  induction l with
  | nil => intro m; simp
  | cons a t ih =>
    intro m
    simp only [List.foldl_cons]
    exact le_trans (ih (min m a)) (min_le_left m a)

theorem foldl_min_le_mem :
    ∀ (l : List ℚ) (m b : ℚ), b ∈ l → l.foldl min m ≤ b := by
  intro l
  induction l with
  | nil => intro m b hb; simp at hb
  | cons a t ih =>
    intro m b hb
    simp only [List.foldl_cons]
    rcases List.mem_cons.mp hb with h | h
    · subst h
      exact le_trans (foldl_min_le_init t (min m b)) (min_le_right m b)
    · exact ih (min m a) b h

theorem foldl_min_init_or_mem :
    ∀ (l : List ℚ) (m : ℚ), l.foldl min m = m ∨ l.foldl min m ∈ l := by
  intro l
  induction l with
  | nil => intro m; exact Or.inl rfl
  | cons a t ih =>
    intro m
    simp only [List.foldl_cons]
    rcases ih (min m a) with h | h
    · rcases min_choice m a with hm | hm
      · exact Or.inl (h.trans hm)
      · exact Or.inr (List.mem_cons.mpr (Or.inl (h.trans hm)))
    · exact Or.inr (List.mem_cons.mpr (Or.inr h))

/-- Claim C2 counterexample: two workers, shared pre-iteration baseline `2`,
and per-worker local increment `1` each (for the three scalar invariants the
local value of the iteration is itself the per-worker increment, because the
locals are zeroed at source lines 319-321).  The spec-modelled
reset-each-round sum-reduction over the code's contributions
`local - baseline/W` yields `0`, while the sum of the per-worker local
increments is `2`: the reduction does not yield the true aggregate
increment. -/
theorem c2_counterexample :
    sumReduceRound (([1, 1] : List ℚ).map (fun s => workerContribution s 2 2)) = 0 ∧
    ([1, 1] : List ℚ).sum = 2 ∧ (0 : ℚ) ≠ 2 := by
  norm_num [sumReduceRound, workerContribution]

/-- Claim C2 as amended (spec-modelled aggregation): both reductions start
each outer iteration from their identity (`0` for the sum-reduction, `INF`
standing for `+∞` for the min-reduction) under the reset-each-round model
of spec section 4.3, and the min-reduction yields the minimum of the
per-worker feasibility bounds; but the sum-reduction over the contributions
`local - baseline/W` yields the sum of the per-worker local values minus
exactly one copy of the shared baseline, which equals the true aggregate
increment only when the shared baseline is zero — as it is on the first
outer iteration, where `w_orig = 0` and the three `_org` scalars are `0`. -/
theorem c2_amended (locals : List ℚ) (baseline : ℚ) (W : ℕ)
    (hW : W = locals.length) (hpos : 0 < W) :
    sumReduceRound (locals.map (fun s => workerContribution s baseline W)) =
      locals.sum - baseline ∧
    (baseline = 0 →
      sumReduceRound (locals.map (fun s => workerContribution s baseline W)) =
        locals.sum) ∧
    (∀ bounds : List ℚ, bounds ≠ [] → (∀ b ∈ bounds, b ≤ INF) →
      minReduceRound bounds ∈ bounds ∧
        ∀ b ∈ bounds, minReduceRound bounds ≤ b) := by
  have hsum :
      sumReduceRound (locals.map (fun s => workerContribution s baseline W)) =
        locals.sum - baseline := by
    rw [sumReduceRound]
    have : (fun s => workerContribution s baseline W) =
        (fun s => s - baseline / W) := rfl
    rw [this, sum_map_sub_share, hW]
    have hl : ((locals.length : ℚ)) ≠ 0 := by
      rw [hW] at hpos
      exact_mod_cast Nat.pos_iff_ne_zero.mp hpos
    field_simp
  refine ⟨hsum, fun hb => by rw [hsum, hb, sub_zero], ?_⟩
  intro bounds hne hle
  constructor
  · rcases foldl_min_init_or_mem bounds INF with h | h
    · obtain ⟨b0, hb0⟩ := List.exists_mem_of_ne_nil bounds hne
      have h1 : minReduceRound bounds ≤ b0 := foldl_min_le_mem bounds INF b0 hb0
      have h2 : b0 = minReduceRound bounds := by
        rw [minReduceRound, h]
        exact le_antisymm (hle b0 hb0) (by rw [minReduceRound, h] at h1; exact h1)
      rw [← h2]
      exact hb0
    · exact h
  · intro b hb
    exact foldl_min_le_mem bounds INF b hb

theorem c2_amended_witness :
    sumReduceRound (([1, 1] : List ℚ).map (fun s => workerContribution s 2 2)) =
      ([1, 1] : List ℚ).sum - 2 :=
  (c2_amended [1, 1] 2 2 rfl (by norm_num)).1

theorem maxStepStep_le (m : ℚ) (p : ℚ × ℚ) : maxStepStep m p ≤ m := by
  rw [maxStepStep]
  split_ifs
  · exact min_le_left m INF
  · exact min_le_left m _
  · exact le_refl m

theorem foldl_maxStep_le_init :
    ∀ (l : List (ℚ × ℚ)) (m : ℚ), l.foldl maxStepStep m ≤ m := by
  intro l
  induction l with
  | nil => intro m; simp
  | cons q t ih =>
    intro m
    simp only [List.foldl_cons]
    exact le_trans (ih (maxStepStep m q)) (maxStepStep_le m q)

theorem foldl_maxStep_le_bound :
    ∀ (l : List (ℚ × ℚ)) (m : ℚ) (p : ℚ × ℚ), p ∈ l → p.2 < 0 →
      l.foldl maxStepStep m ≤ -p.1 / p.2 := by
  intro l
  induction l with
  | nil => intro m p hp _; simp at hp
  | cons q t ih =>
    intro m p hp hneg
    simp only [List.foldl_cons]
    rcases List.mem_cons.mp hp with h | h
    · subst h
      refine le_trans (foldl_maxStep_le_init t (maxStepStep m p)) ?_
      rw [maxStepStep, if_neg (by linarith), if_pos hneg]
      exact min_le_right m _
    · exact ih (maxStepStep m q) p h hneg

/-- Claim C5 counterexample: with the uninitialized `w_inc_square` holding
`-8` (the indeterminate-initial-contents convention of claim C3), the
iteration driven by `d5x` applies a step (`grad_alpha_inc = -1 < 0`) whose
length `eta = min(INF, -(-1)/(1 + (-8 + 1))) = -1/6` is bounded by the
feasibility ceiling (here `INF`, since the only dual-increment component is
positive), yet line 403 drives `alpha[0]` from `0` to `-1/6 < 0`: the dual
variable does not remain non-negative after the global step. -/
theorem c5_counterexample :
    gradAt (initState 1 1 (-8) 0) d5x < 0 ∧
    etaAt (initState 1 1 (-8) 0) d5x = -1/6 ∧
    etaAt (initState 1 1 (-8) 0) d5x ≤ maxStepFold [((0 : ℚ), (1 : ℚ))] ∧
    (contState 1 (initState 1 1 (-8) 0) d5x).alpha = [-1/6] ∧
    ¬(0 ≤ (-1/6 : ℚ)) := by
  refine ⟨?_, ?_, ?_, ?_, by norm_num⟩
  · norm_num [gradAt, wdwUsed, dot, d5x, initState, List.replicate]
  · norm_num [etaAt, gradAt, aQaAt, wdwUsed, wincSqUsed, dot,
      self_dot_product, d5x, initState, List.replicate, min_def, INF]
  · norm_num [etaAt, gradAt, aQaAt, wdwUsed, wincSqUsed, dot,
      self_dot_product, d5x, initState, List.replicate, min_def,
      maxStepFold, maxStepStep, INF]
  · norm_num [contState, wAfter, etaAt, gradAt, aQaAt, wdwUsed, wincSqUsed,
      dot, self_dot_product, vadd, smul, d5x, initState, List.replicate,
      min_def, INF]

/-- Claim C5 as amended: every inner coordinate update clamps the dual
variable into `[0, INF]`, so it stays non-negative; and the global step
`alpha = alpha_orig + eta * alpha_inc` keeps every component non-negative
whenever the pre-step values are non-negative and `eta` is non-negative in
addition to being bounded by the feasibility ceiling computed by the code
(that ceiling is at most `-alpha_orig[i] / alpha_inc[i]` for every
component with `alpha_inc[i] < 0`).  The extra `0 <= eta` condition is
forced: the uninitialized `w_inc_square` can make the step length negative
while still below the ceiling, as the counterexample shows. -/
theorem c5_alpha_nonneg :
    (∀ a G QD : ℚ, 0 ≤ alphaUpdate a G QD) ∧
    (∀ (pairs : List (ℚ × ℚ)) (eta : ℚ),
      (∀ p ∈ pairs, 0 ≤ p.1) → 0 ≤ eta → eta ≤ maxStepFold pairs →
      ∀ p ∈ pairs, 0 ≤ p.1 + eta * p.2) := by
  constructor
  · intro a G QD
    exact le_min (le_max_right _ 0) (by norm_num [INF])
  · intro pairs eta hnn heta hmax p hp
    rcases lt_trichotomy p.2 0 with hneg | hz | hposn
    · have h1 : eta ≤ -p.1 / p.2 :=
        le_trans hmax (foldl_maxStep_le_bound pairs INF p hp hneg)
      have h2 : (-p.1 / p.2) * p.2 ≤ eta * p.2 :=
        mul_le_mul_of_nonpos_right h1 (le_of_lt hneg)
      rw [div_mul_cancel₀ (-p.1) (ne_of_lt hneg)] at h2
      linarith
    · rw [hz]
      simpa using hnn p hp
    · have := mul_nonneg heta (le_of_lt hposn)
      have := hnn p hp
      linarith

theorem c5_witness :
    0 ≤ alphaUpdate (-5) 3 2 ∧ 0 ≤ (1 : ℚ) + (1/2) * (-1) := by
  constructor
  · exact c5_alpha_nonneg.1 (-5) 3 2
  · have h := c5_alpha_nonneg.2 [((1 : ℚ), (-1 : ℚ))] (1/2)
      (by intro p hp; simp at hp; rw [hp]; norm_num)
      (by norm_num)
      (by norm_num [maxStepFold, maxStepStep, min_def, INF])
      ((1 : ℚ), (-1 : ℚ)) (by simp)
    simpa using h

/-- Claim C6 counterexample: with the uninitialized `w_inc_square` holding
`-8`, the iteration driven by `d0x` applies a step (`grad_alpha_inc = -1 <
0`) but the denominator `alpha_inc_square + w_inc_square = 1 + (-8 + 1) =
-6` is negative, so `eta = min(INF, -(-1)/(-6)) = -1/6` does not lie in the
claimed interval `[0, min(feasibility ceiling, unconstrained optimum)]`. -/
theorem c6_counterexample :
    gradAt (initState 1 1 (-8) 0) d0x < 0 ∧
    aQaAt (initState 1 1 (-8) 0) d0x = -6 ∧
    etaAt (initState 1 1 (-8) 0) d0x = -1/6 ∧
    ¬(0 ≤ etaAt (initState 1 1 (-8) 0) d0x) := by
  refine ⟨?_, ?_, ?_, ?_⟩
  · norm_num [gradAt, wdwUsed, dot, d0x, initState, List.replicate]
  · norm_num [aQaAt, wincSqUsed, self_dot_product, d0x, initState]
  · norm_num [etaAt, gradAt, aQaAt, wdwUsed, wincSqUsed, dot,
      self_dot_product, d0x, initState, List.replicate, min_def, INF]
  · norm_num [etaAt, gradAt, aQaAt, wdwUsed, wincSqUsed, dot,
      self_dot_product, d0x, initState, List.replicate, min_def, INF]

/-- Claim C6 as amended: in every outer iteration the applied step length
equals `min(max_step, -grad_alpha_inc / (alpha_inc_square + w_inc_square))`
(source line 401, unconditionally); and in an applying iteration
(`grad_alpha_inc < 0`) it lies in
`[0, min(feasibility ceiling, unconstrained optimum)]` provided additionally
the curvature denominator is positive and the feasibility ceiling is
non-negative.  The extra conditions are forced: the uninitialized
`w_inc_square` can make the denominator, and hence `eta`, negative, as the
counterexample shows. -/
theorem c6_step_size (st : LoopState) (d : IterData) :
    etaAt st d = min d.max_step (-gradAt st d / aQaAt st d) ∧
    (gradAt st d < 0 → 0 < aQaAt st d → 0 ≤ d.max_step →
      0 ≤ etaAt st d ∧
      etaAt st d ≤ min d.max_step (-gradAt st d / aQaAt st d)) := by
  refine ⟨rfl, fun hg ha hm => ⟨?_, le_of_eq rfl⟩⟩
  rw [etaAt]
  exact le_min hm (div_nonneg (by linarith) (le_of_lt ha))

theorem c6_witness :
    etaAt (initState 1 1 0 0) d0x =
      min d0x.max_step
        (-gradAt (initState 1 1 0 0) d0x / aQaAt (initState 1 1 0 0) d0x) ∧
    (0 ≤ etaAt (initState 1 1 0 0) d0x ∧
      etaAt (initState 1 1 0 0) d0x ≤
        min d0x.max_step
          (-gradAt (initState 1 1 0 0) d0x / aQaAt (initState 1 1 0 0) d0x)) :=
  ⟨(c6_step_size (initState 1 1 0 0) d0x).1,
   (c6_step_size (initState 1 1 0 0) d0x).2
     (by norm_num [gradAt, wdwUsed, dot, d0x, initState, List.replicate])
     (by norm_num [aQaAt, wincSqUsed, self_dot_product, d0x, initState])
     (by norm_num [d0x, INF])⟩

/-- Claim C7 counterexample: `INF` is the largest finite double, so the
clamp at source line 353 can land exactly on it: one update from
`alpha = 0` with `G = -(INF * QD)` and `QD = 1` yields `alpha = INF`.  At
`alpha = INF` with `G = -1` the code computes `PG = 0` (upper-bound branch,
lines 343-346), while the claimed rule `PG = G` unless
`alpha == 0 and G >= 0` gives `PG = -1`: the upper-bound case does change
`PG` from `G` at a reachable `alpha`. -/
theorem c7_counterexample :
    alphaUpdate 0 (-(INF * 1)) 1 = INF ∧
    pg INF (-1) = 0 ∧
    claimedPG INF (-1) = -1 ∧
    pg INF (-1) ≠ claimedPG INF (-1) := by
  refine ⟨?_, ?_, ?_, ?_⟩
  · rw [alphaUpdate]
    rw [max_eq_left (by norm_num [INF])]
    rw [min_eq_left (by norm_num)]
    norm_num
  · rw [pg, if_neg (by norm_num [INF]), if_pos rfl, if_neg (by norm_num)]
  · rw [claimedPG, if_neg (by norm_num [INF])]
  · rw [pg, if_neg (by norm_num [INF]), if_pos rfl, if_neg (by norm_num),
      claimedPG, if_neg (by norm_num [INF])]
    norm_num

/-- Claim C7 as amended: the projected gradient equals `G` except in two
cases that set it to `0`: the lower-bound case `alpha == 0 and G >= 0` and
the upper-bound case `alpha == INF and G <= 0`; the upper-bound case is
reachable because `INF` is the finite largest double and the update clamp
can land exactly on it. -/
theorem c7_amended :
    (∀ a G : ℚ, pg a G =
      if (a = 0 ∧ 0 ≤ G) ∨ (a = INF ∧ G ≤ 0) then 0 else G) ∧
    alphaUpdate 0 (-(INF * 1)) 1 = INF := by
  constructor
  · intro a G
    have hINF : (INF : ℚ) ≠ 0 := by norm_num [INF]
    rw [pg]
    by_cases h0 : a = 0
    · rw [if_pos h0]
      by_cases hG : G < 0
      · rw [if_pos hG, if_neg]
        rintro (⟨h1, h2⟩ | ⟨h1, h2⟩)
        · exact absurd h2 (not_le.mpr hG)
        · exact hINF (h1.symm.trans h0)
      · rw [if_neg hG, if_pos (Or.inl ⟨h0, not_lt.mp hG⟩)]
    · rw [if_neg h0]
      by_cases hI : a = INF
      · rw [if_pos hI]
        by_cases hG : 0 < G
        · rw [if_pos hG, if_neg]
          rintro (⟨h1, h2⟩ | ⟨h1, h2⟩)
          · exact h0 h1
          · exact absurd h2 (not_le.mpr hG)
        · rw [if_neg hG, if_pos (Or.inr ⟨hI, not_lt.mp hG⟩)]
      · rw [if_neg hI, if_neg]
        rintro (⟨h1, h2⟩ | ⟨h1, h2⟩)
        · exact h0 h1
        · exact hI h1
  · rw [alphaUpdate]
    rw [max_eq_left (by norm_num [INF])]
    rw [min_eq_left (by norm_num)]
    norm_num

/-- Claim C8: with a declared format that is neither `"libsvm"` nor
`"tsv"`, `initialize` raises no error at all — the `DataFormat` local is
simply never assigned (`none`) and execution proceeds to parse the data
with it; the two supported strings select their formats.  This evaluates
the embedded dispatch at the failing input `"csv"`. -/
theorem c8_format_fallthrough :
    parseFormat "csv" = none ∧
    parseFormat "libsvm" = some DataFormat.kLIBSVMFormat ∧
    parseFormat "tsv" = some DataFormat.kTSVFormat := by
  refine ⟨?_, ?_, ?_⟩ <;> simp [parseFormat]

/-- Claim C10 (confirmed): `evaluate` reports `1 - errors/total` with no
guard on the denominator; whenever the aggregated test partition is
non-empty the reported accuracy is a well-defined value in `[0, 1]`, and
when the aggregated test-sample count is zero the division is by zero
(`none` in the embedding). -/
theorem c10_accuracy (w : List ℚ) (pts : List LabeledPoint) :
    (pts.length ≠ 0 →
      ∃ r, accuracyOf w pts = some r ∧ 0 ≤ r ∧ r ≤ 1) ∧
    (pts.length = 0 → accuracyOf w pts = none) := by
  constructor
  · intro h
    have hp : (0 : ℚ) < (pts.length : ℚ) := by
      exact_mod_cast Nat.pos_of_ne_zero h
    have he : (errorCount w pts : ℚ) ≤ (pts.length : ℚ) := by
      exact_mod_cast List.length_filter_le _ pts
    have hnn : (0 : ℚ) ≤ (errorCount w pts : ℚ) := by positivity
    refine ⟨1 - (errorCount w pts : ℚ) / (pts.length : ℚ), ?_, ?_, ?_⟩
    · rw [accuracyOf, if_neg h]
    · have := (div_le_one hp).mpr he
      linarith
    · have := div_nonneg hnn (le_of_lt hp)
      linarith
  · intro h
    rw [accuracyOf, if_pos h]

theorem c10_witness :
    (∃ r, accuracyOf [1] [⟨[1], 1⟩] = some r ∧ 0 ≤ r ∧ r ≤ 1) ∧
    accuracyOf [1] ([] : List LabeledPoint) = none :=
  ⟨(c10_accuracy [1] [⟨[1], 1⟩]).1 (by simp),
   (c10_accuracy [1] []).2 rfl⟩
